import Mathlib

set_option maxRecDepth 4000
set_option linter.unnecessarySeqFocus false
set_option linter.unusedVariables false

/-! Shallow embedding of the sukureipu thread scraper.

Translated from the repository sources:
- src/sukureipu.py : gen_full_path, extract_file_objects, gen_path,
  get_json_data_for_thread, download_files (pacing), main (title derivation);
- src/Thread.py : Thread._gen_path, Thread._get_files, Thread._gen_full_path,
  Thread._get_json_data, Thread.download, Thread._download_files;
- src/util/enums.py : ModSince, OnMatch, get_mod_enum, get_on_match_enum.

Filesystem state is modelled as the finite list of paths that exist on disk;
HTTP traffic is modelled by an explicit response record; Python dict-key
absence is modelled with Option; a Python runtime error (KeyError/IndexError)
on a path the code can actually reach is modelled as an Option none result. -/

/-! ## String primitives

The source renders templates with re.subn over literal patterns of the shape
percent-paren-key-paren.  We model re.subn with a literal, nonempty pattern:
replace every non-overlapping occurrence, scanning left to right.  The fuel
argument (initialised to the length of the subject, one unit per consumed
character) makes the recursion structural; it never runs out because each
step consumes at least one character of the subject. -/

def substFuel (pat repl : List Char) : Nat → List Char → List Char
  | 0, l => l
  | _ + 1, [] => []
  | f + 1, c :: cs =>
    if pat.isPrefixOf (c :: cs) ∧ pat.length ≠ 0 then
      repl ++ substFuel pat repl f (cs.drop (pat.length - 1))
    else
      c :: substFuel pat repl f cs

/-- Replace every occurrence of `pat` in `l` by `repl` (re.subn with a literal
pattern, as used by gen_path and gen_full_path). -/
def substL (pat repl l : List Char) : List Char :=
  substFuel pat repl l.length l

/-- String wrapper for `substL`: substitute every occurrence of `pat` in `s`. -/
def substS (s pat repl : String) : String :=
  String.mk (substL pat.data repl.data s.data)

/-- Lowercasing as the source applies it to the whole directory template
before substituting.  Char.toLower lowercases only the basic Latin letters,
whereas Python str.lower() also lowercases non-ASCII letters, so this models
the source faithfully on ASCII template text only; the rendering theorem over
arbitrary templates below therefore carries an ASCII hypothesis. -/
def lowerS (s : String) : String :=
  String.mk (s.data.map Char.toLower)

/-- Join a list of strings with a comma-space separator (Python list display). -/
def commaJoin : List String → String
  | [] => ""
  | [s] => s
  | s :: rest => s ++ ", " ++ commaJoin rest

def squote : Char := Char.ofNat 39

def dquote : Char := Char.ofNat 34

def bslash : Char := Char.ofNat 92

/-- Python repr of a printable string: single quotes unless the string holds a
single quote and no double quote; the delimiter and backslashes are escaped. -/
def pyStrRepr (s : String) : String :=
  let q : Char := if s.data.contains squote && !(s.data.contains dquote) then dquote else squote
  String.mk (q :: s.data.foldr (fun c acc => if c = bslash || c = q then bslash :: c :: acc else c :: acc) [q])

/-- Python str() of a list of strings, e.g. the f-string rendering of
Path.suffixes inside the APPEND collision branch of the source. -/
def pyListRepr (l : List String) : String :=
  "[" ++ commaJoin (l.map pyStrRepr) ++ "]"

/-! ## Path model

Paths are plain strings with slash separators; the helpers below mirror the
pathlib accessors the source uses (PurePath.name, parents, stem, suffixes,
and the slash join operator).  Rooted-path corner cases the program never
produces are not modelled. -/

/-- Component after the last slash (PurePath.name). -/
def pathName (p : String) : String :=
  String.mk ((p.data.reverse.takeWhile (fun c => c ≠ '/')).reverse)

/-- Component before the last slash (PurePath.parents[0]); a bare file name has
parent dot, exactly as in pathlib. -/
def parentDir (p : String) : String :=
  match p.data.reverse.dropWhile (fun c => c ≠ '/') with
  | [] => "."
  | _ :: rest => if rest = [] then "/" else String.mk rest.reverse

/-- PurePath.suffix: the final dotted extension of the name, empty when the
dot is leading or trailing or absent. -/
def pathSuffix (p : String) : String :=
  let nm := (pathName p).data
  match nm.reverse.findIdx? (fun c => c = '.') with
  | none => ""
  | some j =>
    let i := nm.length - 1 - j
    if 0 < i ∧ i < nm.length - 1 then String.mk (nm.drop i) else ""

/-- PurePath.stem: the name with its final suffix removed. -/
def pathStem (p : String) : String :=
  let nm := (pathName p).data
  String.mk (nm.take (nm.length - (pathSuffix p).data.length))

/-- Split a character list on a separator character (Python str.split with a
one-character separator). -/
def splitOnChar (sep : Char) : List Char → List (List Char)
  | [] => [[]]
  | c :: cs =>
    let r := splitOnChar sep cs
    if c = sep then [] :: r
    else
      match r with
      | [] => [[c]]
      | h :: t => (c :: h) :: t

/-- PurePath.suffixes: empty for a name ending in a dot; otherwise the dotted
pieces after the first dot of the name stripped of leading dots. -/
def pathSuffixes (p : String) : List String :=
  let nm := (pathName p).data
  if nm.getLast? = some '.' then []
  else
    let stripped := nm.dropWhile (fun c => c = '.')
    ((splitOnChar '.' stripped).drop 1).map (fun s => String.mk ('.' :: s))

/-- Path join (the / operator of pathlib); joining onto dot or the empty base
yields the relative path itself, as pathlib does. -/
def pathJoin (base rel : String) : String :=
  if base = "." ∨ base = "" then rel else base ++ "/" ++ rel

/-- Disk state: the finite set of paths that exist, as a list; fpath.exists()
is membership. -/
def pathExists (disk : List String) (p : String) : Bool :=
  disk.contains p

/-! ## Enumerations (src/util/enums.py) -/

inductive ModSince where
  | REUSE
  | STOP
  | IGNORE
deriving DecidableEq, Repr

inductive OnMatch where
  | APPEND
  | REPLACE
  | SKIP
  | STOP
deriving DecidableEq, Repr

/-- get_mod_enum: a Python match statement that falls off the end returns
None, hence the Option result. -/
def get_mod_enum (mod_since : String) : Option ModSince :=
  if mod_since = "reuse" then some ModSince.REUSE
  else if mod_since = "stop" then some ModSince.STOP
  else if mod_since = "ignore" then some ModSince.IGNORE
  else none

/-- get_on_match_enum, exactly as written in src/util/enums.py: note that the
final case pattern in the source is the uppercase literal string, so the
lowercase configuration string for the stop policy matches no case and the
function returns None. -/
def get_on_match_enum (on_match : String) : Option OnMatch :=
  if on_match = "append" then some OnMatch.APPEND
  else if on_match = "replace" then some OnMatch.REPLACE
  else if on_match = "skip" then some OnMatch.SKIP
  else if on_match = "STOP" then some OnMatch.STOP
  else none

/-! ## Data model -/

/-- Attachment fields of a post; the remote API supplies filename, tim and ext
together exactly when the post carries a file. -/
structure FileData where
  filename : String
  tim : Nat
  ext : String
deriving DecidableEq, Repr

/-- One post of the thread JSON.  Optional dict keys are Options; `file` is
present exactly when the filename/tim/ext keys are present. -/
structure Post where
  no : Nat
  time : Nat
  sub : Option String
  com : Option String
  closed : Option Nat
  file : Option FileData
deriving DecidableEq, Repr

/-- The parsed thread JSON body. -/
structure JsonData where
  posts : List Post
deriving DecidableEq, Repr

/-- The structure_info mapping of sukureipu.main / Thread: board, thread id
string, derived title. -/
structure StructureInfo where
  board : String
  thread : String
  title : String
deriving DecidableEq, Repr

/-! ## Template rendering -/

/-- gen_path of src/sukureipu.py (identical to the substitution loop of
Thread._gen_path): lowercase the whole template, then substitute the board,
thread and title placeholders in that order. -/
def gen_path (structure_info : StructureInfo) (template : String) : String :=
  let template := lowerS template
  let t1 := substS template "%(board)" structure_info.board
  let t2 := substS t1 "%(thread)" structure_info.thread
  substS t2 "%(title)" structure_info.title

/-- gen_full_path of src/sukureipu.py on a post whose file keys are present:
substitute id, post, file, ext in order, then append the extension.  Note the
source reads the post field named time (the post timestamp) for the id
placeholder. -/
def gen_full_path_core (post : Post) (fd : FileData) (template : String) : String :=
  let t1 := substS template "%(id)" (toString post.time)
  let t2 := substS t1 "%(post)" (toString post.no)
  let t3 := substS t2 "%(file)" fd.filename
  let t4 := substS t3 "%(ext)" fd.ext
  t4 ++ fd.ext

/-- gen_full_path of src/sukureipu.py; none models the KeyError raised when
the file keys are absent from the post dict. -/
def gen_full_path (post : Post) (template : String) : Option String :=
  post.file.map (fun fd => gen_full_path_core post fd template)

/-- Thread._gen_full_path of src/Thread.py: same substitution chain, but the
id placeholder is filled from the image timestamp field tim. -/
def Thread_gen_full_path_core (post : Post) (fd : FileData) (template : String) : String :=
  let t1 := substS template "%(id)" (toString fd.tim)
  let t2 := substS t1 "%(post)" (toString post.no)
  let t3 := substS t2 "%(file)" fd.filename
  let t4 := substS t3 "%(ext)" fd.ext
  t4 ++ fd.ext

/-- Title derivation shared by sukureipu.main and Thread._gen_path: prefer the
OP subject; else compute e = min(len(com) - 1, 15) and read the single
character com[e]; else fall back to the thread id string.  none models the
IndexError the source raises on an empty comment string. -/
def derive_title (op : Post) (thread_id : String) : Option String :=
  match op.sub with
  | some s => some s
  | none =>
    match op.com with
    | some c =>
      let e := if c.data.length - 1 > 15 then 15 else c.data.length - 1
      (c.data.get? e).map (fun ch => String.mk [ch])
    | none => some thread_id

/-! ## File-list extraction -/

/-- A download-plan entry: destination path plus remote source file name. -/
structure FileObj where
  path : String
  file : String
deriving DecidableEq, Repr

/-- The dict appended by the extraction loops: path plus the f-string of tim
and ext. -/
def mkFileObj (fpath : String) (fd : FileData) : FileObj :=
  ⟨fpath, toString fd.tim ++ fd.ext⟩

/-- One rewriting step of the APPEND collision loop body, for the current
counter value: Path(fpath.parents[0] / f-string of stem, parenthesised
counter, and the Python list display of suffixes). -/
def appendCandidate (counter : Nat) (fpath : String) : String :=
  pathJoin (parentDir fpath) (pathStem fpath ++ "(" ++ toString counter ++ ")" ++ pyListRepr (pathSuffixes fpath))

/-- The APPEND collision loop of the source: counter is initialised to 1 and,
in the source as written, never incremented, so every rewriting step uses the
same counter value.  The loop runs while the current path exists; fuel bounds
the iteration count and one more unit than the number of disk entries always
suffices, because every rewriting step produces a strictly longer path and
each iteration requires the current path to be one of the finitely many disk
entries. -/
def appendResolve (disk : List String) (counter fuel : Nat) (fpath : String) : String :=
  match fuel with
  | 0 => fpath
  | f + 1 =>
    if pathExists disk fpath then
      appendResolve disk counter f (appendCandidate counter fpath)
    else fpath

/-- The while loop of extract_file_objects (src/sukureipu.py), traversing the
posts in iteration order.  The STOP arm returns the list accumulated so far,
which in this cons-style recursion is the empty tail; the wildcard-free Python
match statement does nothing when on_match is None (no case matches), so
iteration just continues. -/
def extract_loop (disk : List String) (on_match : Option OnMatch) (template base_path : String) : List Post → List FileObj
  | [] => []
  | p :: rest =>
    match p.file with
    | none => extract_loop disk on_match template base_path rest
    | some fd =>
      let fpath := pathJoin base_path (gen_full_path_core p fd template)
      if pathExists disk fpath then
        match on_match with
        | some OnMatch.APPEND =>
          mkFileObj (appendResolve disk 1 (disk.length + 1) fpath) fd ::
            extract_loop disk on_match template base_path rest
        | some OnMatch.REPLACE =>
          mkFileObj fpath fd :: extract_loop disk on_match template base_path rest
        | some OnMatch.SKIP => extract_loop disk on_match template base_path rest
        | some OnMatch.STOP => []
        | none => extract_loop disk on_match template base_path rest
      else
        mkFileObj fpath fd :: extract_loop disk on_match template base_path rest

/-- extract_file_objects of src/sukureipu.py: the index arithmetic of the
source (i from 0 ascending, or from len - 1 descending) traverses the posts
list forwards or backwards, which is the traversal of posts or posts.reverse. -/
def extract_file_objects (json_data : JsonData) (reverse : Bool) (on_match : Option OnMatch) (template base_path : String) (disk : List String) : List FileObj :=
  extract_loop disk on_match template base_path
    (if reverse then json_data.posts.reverse else json_data.posts)

/-- The loop of Thread._get_files (src/Thread.py), identical to extract_loop
except that paths render through Thread._gen_full_path. -/
def Thread_get_files_loop (disk : List String) (on_match : Option OnMatch) (template base_path : String) : List Post → List FileObj
  | [] => []
  | p :: rest =>
    match p.file with
    | none => Thread_get_files_loop disk on_match template base_path rest
    | some fd =>
      let fpath := pathJoin base_path (Thread_gen_full_path_core p fd template)
      if pathExists disk fpath then
        match on_match with
        | some OnMatch.APPEND =>
          mkFileObj (appendResolve disk 1 (disk.length + 1) fpath) fd ::
            Thread_get_files_loop disk on_match template base_path rest
        | some OnMatch.REPLACE =>
          mkFileObj fpath fd :: Thread_get_files_loop disk on_match template base_path rest
        | some OnMatch.SKIP => Thread_get_files_loop disk on_match template base_path rest
        | some OnMatch.STOP => []
        | none => Thread_get_files_loop disk on_match template base_path rest
      else
        mkFileObj fpath fd :: Thread_get_files_loop disk on_match template base_path rest

/-- Thread._get_files of src/Thread.py. -/
def Thread_get_files (json_data : JsonData) (reverse : Bool) (on_match : Option OnMatch) (template base_path : String) (disk : List String) : List FileObj :=
  Thread_get_files_loop disk on_match template base_path
    (if reverse then json_data.posts.reverse else json_data.posts)

/-! ## Metadata sync -/

/-- Persisted cache record: the Last-Modified validator plus the raw thread
JSON. -/
structure CacheEntry where
  lastModified : String
  json : JsonData
deriving DecidableEq, Repr

/-- Abstracted HTTP response for the metadata fetch. -/
structure HttpResponse where
  status : Nat
  contentType : String
  lastModified : String
  body : JsonData
deriving DecidableEq, Repr

/-- Result of one metadata sync. -/
inductive SyncOutcome where
  | UPDATED : JsonData → SyncOutcome
  | REUSED : JsonData → SyncOutcome
  | ABORTED : SyncOutcome
deriving DecidableEq, Repr

/-- get_json_data_for_thread of src/sukureipu.py, as a function of the cached
entry, the conditional mode and the received response.  The pair returns the
outcome together with the cache entry on disk after the call: a 200 JSON
response overwrites the cache, every other branch leaves it untouched.  The
source's early sys.exit(0) branch is the ABORTED outcome.  The elif chain of
the source tests status 304, mode REUSE and cached_data presence; matching on
cached_data first is the same predicate. -/
def get_json_data_for_thread (cached_file : Option CacheEntry) (modified_since : ModSince) (resp : HttpResponse) : SyncOutcome × Option CacheEntry :=
  let cached_data : Option CacheEntry :=
    if cached_file.isSome ∧ modified_since ≠ ModSince.IGNORE then cached_file else none
  if resp.status = 200 ∧ resp.contentType = "application/json" then
    (SyncOutcome.UPDATED resp.body, some ⟨resp.lastModified, resp.body⟩)
  else
    match cached_data with
    | some cd =>
      if resp.status = 304 ∧ modified_since = ModSince.REUSE then
        (SyncOutcome.REUSED cd.json, cached_file)
      else
        (SyncOutcome.ABORTED, cached_file)
    | none => (SyncOutcome.ABORTED, cached_file)

/-- Thread._get_json_data of src/Thread.py: same branch structure, the
outcome being self._data (None on the abort path) plus the cache state after
the call. -/
def Thread_get_json_data (cached : Option CacheEntry) (modified_since : ModSince) (resp : HttpResponse) : Option JsonData × Option CacheEntry :=
  let cached_data : Option CacheEntry :=
    if cached.isSome ∧ modified_since ≠ ModSince.IGNORE then cached else none
  if resp.status = 200 ∧ resp.contentType = "application/json" then
    (some resp.body, some ⟨resp.lastModified, resp.body⟩)
  else
    match cached_data with
    | some cd =>
      if resp.status = 304 ∧ modified_since = ModSince.REUSE then
        (some cd.json, cached)
      else
        (none, cached)
    | none => (none, cached)

/-- Observable effects of one Thread.download run: the cache entry left on
disk, the directory path rendered by Thread._gen_path (none when rendering was
never reached), and the file fetches handed to Thread._download_files. -/
structure RunEffects where
  cache : Option CacheEntry
  rendered : Option String
  fetches : List FileObj
deriving DecidableEq, Repr

/-- Thread.download of src/Thread.py: fetch-or-reuse metadata, early return
when self._data is None, else render the directory path, build the file list,
download it (an empty list downloads nothing), and finally, when cleanup is
configured and the OP carries closed equal to 1, unlink the cache file (the
KeyError on a missing closed key is swallowed by the source's except).  The
outer none models the IndexError/uncaught error on an empty posts list or an
empty OP comment, paths the spec does not constrain. -/
def Thread_download (cached : Option CacheEntry) (modified_since : ModSince) (resp : HttpResponse) (clean reverse : Bool) (on_match : Option OnMatch) (structure_tmpl base_path board thread_id : String) (disk : List String) : Option RunEffects :=
  let r := Thread_get_json_data cached modified_since resp
  match r.1 with
  | none => some ⟨r.2, none, []⟩
  | some data =>
    match data.posts with
    | [] => none
    | op :: _ =>
      match derive_title op thread_id with
      | none => none
      | some title =>
        let dir := gen_path ⟨board, thread_id, title⟩ structure_tmpl
        let files := Thread_get_files data reverse on_match dir base_path disk
        let cacheF := if clean ∧ op.closed = some 1 then none else r.2
        some ⟨cacheF, some dir, files⟩

/-! ## Download pacing (download_files / Thread._download_files)

The attempt duration of each item is taken as an input; the loop body then
sleeps for the remainder of one time unit whenever the attempt took less than
one unit, with no exemption for the final item. -/

/-- Sleep inserted after one attempt: the remainder of the time unit when the
attempt was faster than one unit. -/
def sleepAmount (elapsed : ℚ) : ℚ :=
  if elapsed < 1 then 1 - elapsed else 0

/-- Wall time of one loop iteration: the attempt itself plus the pacing sleep. -/
def iterDuration (elapsed : ℚ) : ℚ :=
  elapsed + sleepAmount elapsed

/-- Total wall time of a download_files run whose attempts take the given
durations. -/
def downloadTotalTime (durations : List ℚ) : ℚ :=
  (durations.map iterDuration).sum

/-- Pacing sleep performed after the final item of the run (0 for an empty
run). -/
def lastSleep (durations : List ℚ) : ℚ :=
  (durations.map sleepAmount).getLastD 0

/-! ## Template decomposition

For the rendering theorem the template is given decomposed into an
alternation of literal pieces and placeholder occurrences; flattening the
decomposition recovers the raw template string handed to gen_path.  The
scoping predicates keep the embedding inside the territory where it is
faithful to Python: literal pieces carry no percent-paren opener (so the
decomposition is honest) and are ASCII (Char.toLower matches str.lower there);
placeholder keys carry no percent or closing parenthesis (so the key text
does not itself form placeholder boundaries); substituted values carry no
percent (a substituted value is never rewritten by a later pass) and no
backslash (re.subn gives backslashes in the replacement special meaning). -/

/-- Percent-free text: contains no percent character. -/
def pctFree (s : String) : Bool :=
  s.data.all (fun c => c != '%')

/-- Clean placeholder key: no percent, no closing parenthesis. -/
def keyClean (s : String) : Bool :=
  s.data.all (fun c => c != '%' && c != ')')

/-- ASCII text, the domain on which Char.toLower agrees with str.lower(). -/
def asciiStr (s : String) : Bool :=
  s.data.all (fun c => c.toNat < 128)

/-- Clean substitution value: no percent, no backslash. -/
def valClean (s : String) : Bool :=
  s.data.all (fun c => c != '%' && c != bslash)

/-- One segment of a decomposed template: a literal piece, or a placeholder
written with the percent-paren syntax around its key. -/
inductive TSeg where
  | lit : String → TSeg
  | ph : String → TSeg
deriving DecidableEq, Repr

/-- The raw text of one segment. -/
def segText : TSeg → String
  | TSeg.lit s => s
  | TSeg.ph k => "%(" ++ k ++ ")"

/-- Flatten a decomposed template back into the raw template string. -/
def segFlat : List TSeg → String
  | [] => ""
  | s :: rest => segText s ++ segFlat rest

/-- Lowercase one segment, the effect of the source's template.lower() on the
decomposition. -/
def lowerSeg : TSeg → TSeg
  | TSeg.lit s => TSeg.lit (lowerS s)
  | TSeg.ph k => TSeg.ph (lowerS k)

/-- Replace every placeholder with key `w` by the literal value `v`, the
segment-level effect of one substitution pass. -/
def substSegs (w v : String) : List TSeg → List TSeg
  | [] => []
  | TSeg.lit s :: r => TSeg.lit s :: substSegs w v r
  | TSeg.ph k :: r => (if k = w then TSeg.lit v else TSeg.ph k) :: substSegs w v r

/-- Modelled from the spec (section 4.1): the intended rendering of a
decomposed directory template — literal text passes through (lowercased by
the case-insensitivity device), each supported placeholder key (matched
case-insensitively) is replaced by its context value, and a placeholder whose
key is not supplied is left verbatim. -/
def segRender (info : StructureInfo) : List TSeg → String
  | [] => ""
  | TSeg.lit s :: r => lowerS s ++ segRender info r
  | TSeg.ph k :: r =>
      (if lowerS k = "board" then info.board
       else if lowerS k = "thread" then info.thread
       else if lowerS k = "title" then info.title
       else "%(" ++ lowerS k ++ ")") ++ segRender info r

/-- Every literal piece of the decomposition is percent-free. -/
def litsPctFree : List TSeg → Bool
  | [] => true
  | TSeg.lit s :: r => pctFree s && litsPctFree r
  | TSeg.ph _ :: r => litsPctFree r

/-- Every placeholder key of the decomposition is clean. -/
def keysClean : List TSeg → Bool
  | [] => true
  | TSeg.lit _ :: r => keysClean r
  | TSeg.ph k :: r => keyClean k && keysClean r

/-- Every literal piece and key of the decomposition is ASCII. -/
def segsAscii : List TSeg → Bool
  | [] => true
  | TSeg.lit s :: r => asciiStr s && segsAscii r
  | TSeg.ph k :: r => asciiStr k && segsAscii r

/-! ## Helper lemmas -/

theorem filterMap_rev {α β : Type} (f : α → Option β) :
    ∀ l : List α, List.filterMap f l.reverse = (List.filterMap f l).reverse := by
  intro l
  induction l with
  | nil => rfl
  | cons a l ih =>
    cases hf : f a <;>
      simp [List.filterMap_cons, List.filterMap_append, hf, ih]

theorem toLower_eq_of_lt65 (c d : Char) (hd : d.toNat < 65) (h : Char.toLower c = d) : c = d := by
  unfold Char.toLower at h
  dsimp only at h
  split at h
  · exfalso
    rename_i hr
    have hval : (c.toNat + 32).isValidChar := Or.inl (by omega)
    have ht : (Char.ofNat (c.toNat + 32)).toNat = c.toNat + 32 := by
      unfold Char.ofNat
      rw [dif_pos hval]
      simp [Char.ofNatAux, Char.toNat, UInt32.toNat, BitVec.toNat_ofNatLt]
    rw [h] at ht
    omega
  · exact h

theorem pctFree_lowerS (s : String) (h : pctFree s = true) : pctFree (lowerS s) = true := by
  simp only [pctFree, lowerS] at h ⊢
  simp only [List.all_map, List.all_eq_true, Function.comp, bne_iff_ne, ne_eq] at h ⊢
  intro c hc heq
  exact h c hc (toLower_eq_of_lt65 c '%' (by decide) heq)

theorem keyClean_lowerS (s : String) (h : keyClean s = true) : keyClean (lowerS s) = true := by
  simp only [keyClean, lowerS] at h ⊢
  simp only [List.all_map, List.all_eq_true, Function.comp, Bool.and_eq_true, bne_iff_ne,
    ne_eq] at h ⊢
  intro c hc
  refine ⟨fun heq => (h c hc).1 (toLower_eq_of_lt65 c '%' (by decide) heq),
    fun heq => (h c hc).2 (toLower_eq_of_lt65 c ')' (by decide) heq)⟩

theorem isPrefixOf_append_self : ∀ (p r : List Char), p.isPrefixOf (p ++ r) = true := by
  intro p r
  induction p with
  | nil => simp [List.isPrefixOf]
  | cons a as ih => simp [List.isPrefixOf, ih]

theorem substFuel_irrel (p v : List Char) :
    ∀ (n f g : Nat) (l : List Char), l.length ≤ n → l.length ≤ f → l.length ≤ g →
      substFuel p v f l = substFuel p v g l := by
  intro n
  induction n with
  | zero =>
    intro f g l hn _ _
    have hl : l = [] := List.eq_nil_of_length_eq_zero (by omega)
    subst hl
    cases f <;> cases g <;> rfl
  | succ n ih =>
    intro f g l hn hf hg
    cases l with
    | nil => cases f <;> cases g <;> rfl
    | cons c cs =>
      cases f with
      | zero => simp at hf
      | succ fp =>
        cases g with
        | zero => simp at hg
        | succ gp =>
          rw [substFuel, substFuel]
          simp only [List.length_cons] at hn hf hg
          by_cases hcond : p.isPrefixOf (c :: cs) ∧ p.length ≠ 0
          · rw [if_pos hcond, if_pos hcond]
            congr 1
            have hd : (cs.drop (p.length - 1)).length ≤ cs.length := by
              simp [List.length_drop]
            exact ih fp gp _ (by omega) (by omega) (by omega)
          · rw [if_neg hcond, if_neg hcond]
            congr 1
            exact ih fp gp cs (by omega) (by omega) (by omega)

theorem substL_cons_nomatch (p v : List Char) (c : Char) (cs : List Char)
    (h : p.isPrefixOf (c :: cs) = false) :
    substL p v (c :: cs) = c :: substL p v cs := by
  unfold substL
  simp only [List.length_cons, substFuel]
  rw [if_neg]
  rintro ⟨h1, -⟩
  simp [h] at h1

theorem substL_skip (p v : List Char) (hp : ∃ t, p = '%' :: t) :
    ∀ (s r : List Char), (∀ c ∈ s, c ≠ '%') → substL p v (s ++ r) = s ++ substL p v r := by
  intro s
  induction s with
  | nil => intro r _; simp
  | cons c s2 ih =>
    intro r hs
    obtain ⟨t, hp2⟩ := hp
    have hc : c ≠ '%' := hs c (by simp)
    have hno : p.isPrefixOf (c :: (s2 ++ r)) = false := by
      rw [hp2]
      simp only [List.isPrefixOf, Bool.and_eq_false_iff, beq_eq_false_iff_ne, ne_eq]
      left
      intro heq
      exact hc heq.symm
    rw [List.cons_append, substL_cons_nomatch p v c (s2 ++ r) hno,
      ih r (fun x hx => hs x (by simp [hx]))]
    rfl

theorem substL_match (p v r : List Char) (hp : p ≠ []) :
    substL p v (p ++ r) = v ++ substL p v r := by
  cases p with
  | nil => exact absurd rfl hp
  | cons a as =>
    unfold substL
    simp only [List.cons_append, List.length_cons, substFuel]
    rw [if_pos]
    · simp only [List.append_eq]
      have hdrop : List.drop (as.length + 1 - 1) (as ++ r) = r := by
        simp only [Nat.add_sub_cancel]
        exact List.drop_left as r
      rw [hdrop]
      congr 1
      exact substFuel_irrel (a :: as) v ((as ++ r).length) ((as ++ r).length) r.length r
        (by simp [List.length_append]) (by simp [List.length_append]) le_rfl
    · refine ⟨?_, by simp⟩
      exact isPrefixOf_append_self (a :: as) r

theorem key_pattern_no_match :
    ∀ (w k r : List Char), (∀ c ∈ w, c ≠ ')') → (∀ c ∈ k, c ≠ ')') → w ≠ k →
      (w ++ [')']).isPrefixOf (k ++ ')' :: r) = false := by
  intro w
  induction w with
  | nil =>
    intro k r _ hk hne
    cases k with
    | nil => exact absurd rfl hne
    | cons b k2 =>
      have hb : b ≠ ')' := hk b (by simp)
      simp [List.isPrefixOf, beq_eq_false_iff_ne]
      intro heq
      exact hb heq.symm
  | cons a w2 ih =>
    intro k r hw hk hne
    have ha : a ≠ ')' := hw a (by simp)
    cases k with
    | nil =>
      simp [List.isPrefixOf, beq_eq_false_iff_ne]
      intro heq
      exact absurd heq ha
    | cons b k2 =>
      by_cases hab : a = b
      · subst hab
        simp only [List.cons_append, List.isPrefixOf, beq_self_eq_true, Bool.true_and]
        exact ih k2 r (fun c hc => hw c (by simp [hc])) (fun c hc => hk c (by simp [hc]))
          (fun hcontra => hne (by rw [hcontra]))
      · simp [List.isPrefixOf, beq_eq_false_iff_ne]
        intro heq
        exact absurd heq hab

theorem substL_skip_unknown (w v k r : List Char)
    (hw : ∀ c ∈ w, c ≠ ')') (hkp : ∀ c ∈ k, c ≠ ')') (hkpc : ∀ c ∈ k, c ≠ '%')
    (hne : k ≠ w) :
    substL ('%' :: '(' :: (w ++ [')'])) v ('%' :: '(' :: (k ++ ')' :: r)) =
      '%' :: '(' :: (k ++ ')' :: substL ('%' :: '(' :: (w ++ [')'])) v r) := by
  have h1 : ('%' :: '(' :: (w ++ [')'])).isPrefixOf ('%' :: '(' :: (k ++ ')' :: r)) = false := by
    simp only [List.isPrefixOf, beq_self_eq_true, Bool.true_and]
    exact key_pattern_no_match w k r hw hkp hne.symm
  have h2 : ('%' :: '(' :: (w ++ [')'])).isPrefixOf ('(' :: (k ++ ')' :: r)) = false := by
    simp [List.isPrefixOf]
  rw [substL_cons_nomatch _ v '%' _ h1, substL_cons_nomatch _ v '(' _ h2]
  have hsplit : k ++ ')' :: r = (k ++ [')']) ++ r := by simp
  rw [hsplit, substL_skip _ v ⟨'(' :: (w ++ [')']), rfl⟩ (k ++ [')']) r ?hfree]
  · simp
  case hfree =>
    intro c hc
    rcases List.mem_append.mp hc with hc1 | hc2
    · exact hkpc c hc1
    · simp at hc2
      subst hc2
      decide

theorem pctFree_chars (s : String) (h : pctFree s = true) : ∀ c ∈ s.data, c ≠ '%' := by
  simpa [pctFree, List.all_eq_true] using h

theorem keyClean_chars_paren (s : String) (h : keyClean s = true) : ∀ c ∈ s.data, c ≠ ')' := by
  simp only [keyClean, List.all_eq_true, Bool.and_eq_true, bne_iff_ne, ne_eq] at h
  exact fun c hc => (h c hc).2

theorem keyClean_chars_pct (s : String) (h : keyClean s = true) : ∀ c ∈ s.data, c ≠ '%' := by
  simp only [keyClean, List.all_eq_true, Bool.and_eq_true, bne_iff_ne, ne_eq] at h
  exact fun c hc => (h c hc).1

theorem valClean_pctFree (s : String) (h : valClean s = true) : pctFree s = true := by
  simp only [valClean, List.all_eq_true, Bool.and_eq_true, bne_iff_ne, ne_eq] at h
  simp only [pctFree, List.all_eq_true, bne_iff_ne, ne_eq]
  exact fun c hc => (h c hc).1

theorem substL_segFlat_data (w v : String) (hw : ∀ c ∈ w.data, c ≠ ')') :
    ∀ segs : List TSeg, litsPctFree segs = true → keysClean segs = true →
      substL ('%' :: '(' :: (w.data ++ [')'])) v.data (segFlat segs).data =
        (segFlat (substSegs w v segs)).data := by
  intro segs
  induction segs with
  | nil => intro _ _; rfl
  | cons sg rest ih =>
    intro hl hk
    cases sg with
    | lit s =>
      have hs : pctFree s = true ∧ litsPctFree rest = true := by
        simpa [litsPctFree, Bool.and_eq_true] using hl
      have hkr : keysClean rest = true := by simpa [keysClean] using hk
      have h1 : (segFlat (TSeg.lit s :: rest)).data = s.data ++ (segFlat rest).data := rfl
      rw [h1, substL_skip _ v.data ⟨'(' :: (w.data ++ [')']), rfl⟩ s.data _
        (pctFree_chars s hs.1), ih hs.2 hkr]
      rfl
    | ph k =>
      have hkk : keyClean k = true ∧ keysClean rest = true := by
        simpa [keysClean, Bool.and_eq_true] using hk
      have hlr : litsPctFree rest = true := by simpa [litsPctFree] using hl
      by_cases hkw : k = w
      · subst hkw
        have h1 : (segFlat (TSeg.ph k :: rest)).data =
            ('%' :: '(' :: (k.data ++ [')'])) ++ (segFlat rest).data := rfl
        rw [h1, substL_match _ v.data _ (by simp), ih hlr hkk.2]
        have h2 : (segFlat (substSegs k v (TSeg.ph k :: rest))).data =
            v.data ++ (segFlat (substSegs k v rest)).data := by
          simp [substSegs, segFlat, segText]
        rw [h2]
      · have h1 : (segFlat (TSeg.ph k :: rest)).data =
            '%' :: '(' :: (k.data ++ ')' :: (segFlat rest).data) := by
          show ('%' :: '(' :: (k.data ++ [')'])) ++ (segFlat rest).data = _
          simp
        have hne : k.data ≠ w.data := fun hdata => hkw (congrArg String.mk hdata)
        rw [h1, substL_skip_unknown w.data v.data k.data _ hw
          (keyClean_chars_paren k hkk.1) (keyClean_chars_pct k hkk.1) hne, ih hlr hkk.2]
        have h2 : (segFlat (substSegs w v (TSeg.ph k :: rest))).data =
            '%' :: '(' :: (k.data ++ ')' :: (segFlat (substSegs w v rest)).data) := by
          simp [substSegs, hkw, segFlat, segText]
        rw [h2]

theorem substS_segFlat (w v : String) (hw : ∀ c ∈ w.data, c ≠ ')')
    (segs : List TSeg) (hl : litsPctFree segs = true) (hk : keysClean segs = true) :
    substS (segFlat segs) ("%(" ++ w ++ ")") v = segFlat (substSegs w v segs) := by
  have hpat : ("%(" ++ w ++ ")").data = '%' :: '(' :: (w.data ++ [')']) := rfl
  show String.mk (substL ("%(" ++ w ++ ")").data v.data (segFlat segs).data) = _
  rw [hpat, substL_segFlat_data w v hw segs hl hk]

theorem litsPctFree_substSegs (w v : String) (hv : pctFree v = true) :
    ∀ segs : List TSeg, litsPctFree segs = true → litsPctFree (substSegs w v segs) = true := by
  intro segs
  induction segs with
  | nil => intro _; rfl
  | cons sg r ih =>
    intro h
    cases sg with
    | lit s =>
      simp only [litsPctFree, substSegs, Bool.and_eq_true] at h ⊢
      exact ⟨h.1, ih h.2⟩
    | ph k =>
      simp only [litsPctFree] at h
      by_cases hkw : k = w
      · subst hkw
        simp [substSegs, litsPctFree, hv, ih h]
      · simp [substSegs, hkw, litsPctFree, ih h]

theorem keysClean_substSegs (w v : String) :
    ∀ segs : List TSeg, keysClean segs = true → keysClean (substSegs w v segs) = true := by
  intro segs
  induction segs with
  | nil => intro _; rfl
  | cons sg r ih =>
    intro h
    cases sg with
    | lit s =>
      simp only [keysClean, substSegs] at h ⊢
      exact ih h
    | ph k =>
      simp only [keysClean, Bool.and_eq_true] at h
      by_cases hkw : k = w
      · subst hkw
        simp [substSegs, keysClean, ih h.2]
      · simp [substSegs, hkw, keysClean, h.1, ih h.2]

theorem litsPctFree_lower :
    ∀ segs : List TSeg, litsPctFree segs = true → litsPctFree (segs.map lowerSeg) = true := by
  intro segs
  induction segs with
  | nil => intro _; rfl
  | cons sg r ih =>
    intro h
    cases sg with
    | lit s =>
      simp only [litsPctFree, List.map_cons, lowerSeg, Bool.and_eq_true] at h ⊢
      exact ⟨pctFree_lowerS s h.1, ih h.2⟩
    | ph k =>
      simp only [litsPctFree, List.map_cons, lowerSeg] at h ⊢
      exact ih h

theorem keysClean_lower :
    ∀ segs : List TSeg, keysClean segs = true → keysClean (segs.map lowerSeg) = true := by
  intro segs
  induction segs with
  | nil => intro _; rfl
  | cons sg r ih =>
    intro h
    cases sg with
    | lit s =>
      simp only [keysClean, List.map_cons, lowerSeg] at h ⊢
      exact ih h
    | ph k =>
      simp only [keysClean, List.map_cons, lowerSeg, Bool.and_eq_true] at h ⊢
      exact ⟨keyClean_lowerS k h.1, ih h.2⟩

theorem lowerS_append (a b : String) : lowerS (a ++ b) = lowerS a ++ lowerS b := by
  show String.mk ((a.data ++ b.data).map Char.toLower) = _
  rw [List.map_append]
  rfl

theorem lowerS_segFlat : ∀ segs : List TSeg, lowerS (segFlat segs) = segFlat (segs.map lowerSeg) := by
  intro segs
  induction segs with
  | nil => rfl
  | cons sg r ih =>
    cases sg with
    | lit s =>
      show lowerS (s ++ segFlat r) = lowerS s ++ segFlat (r.map lowerSeg)
      rw [lowerS_append, ih]
    | ph k =>
      show lowerS ("%(" ++ k ++ ")" ++ segFlat r) = "%(" ++ lowerS k ++ ")" ++ segFlat (r.map lowerSeg)
      rw [lowerS_append, lowerS_append, lowerS_append, ih]
      have h1 : lowerS "%(" = "%(" := rfl
      have h2 : lowerS ")" = ")" := rfl
      rw [h1, h2]

theorem substSegs_three_render (info : StructureInfo) :
    ∀ segs : List TSeg,
      segFlat (substSegs "title" info.title (substSegs "thread" info.thread
        (substSegs "board" info.board (segs.map lowerSeg)))) = segRender info segs := by
  intro segs
  induction segs with
  | nil => rfl
  | cons sg r ih =>
    cases sg with
    | lit s => simp [lowerSeg, substSegs, segFlat, segText, segRender, ih]
    | ph k =>
      by_cases h1 : lowerS k = "board"
      · simp [lowerSeg, substSegs, segFlat, segText, segRender, h1, ih]
      · by_cases h2 : lowerS k = "thread"
        · simp [lowerSeg, substSegs, segFlat, segText, segRender, h1, h2, ih]
        · by_cases h3 : lowerS k = "title"
          · simp [lowerSeg, substSegs, segFlat, segText, segRender, h1, h2, h3, ih]
          · simp [lowerSeg, substSegs, segFlat, segText, segRender, h1, h2, h3, ih]

/-- Modelled from the spec (sections 4.4 and 8), for the refinement stated by
C1: with collision policy STOP the plan is the contiguous initial run, in
iteration order, of file-carrying posts whose rendered destinations do not yet
exist, each mapped to its download item. -/
def specStopPlan (disk : List String) (template base_path : String) (l : List Post) : List FileObj :=
  ((l.filterMap (fun p => p.file.map (fun fd => (p, fd)))).takeWhile
      (fun pf => !(pathExists disk (pathJoin base_path (gen_full_path_core pf.1 pf.2 template))))).map
    (fun pf => mkFileObj (pathJoin base_path (gen_full_path_core pf.1 pf.2 template)) pf.2)

theorem extract_loop_stop_eq (disk : List String) (template base_path : String) :
    ∀ l : List Post,
      extract_loop disk (some OnMatch.STOP) template base_path l =
        specStopPlan disk template base_path l := by
  intro l
  induction l with
  | nil => rfl
  | cons p rest ih =>
    cases hf : p.file with
    | none =>
      simp only [extract_loop, specStopPlan, hf, List.filterMap_cons] at ih ⊢
      exact ih
    | some fd =>
      by_cases he : pathExists disk (pathJoin base_path (gen_full_path_core p fd template)) <;>
        simp only [extract_loop, specStopPlan, hf, he, List.filterMap_cons, List.takeWhile_cons,
          Option.map_some, if_true, if_false, Bool.not_true, Bool.not_false, List.map_cons,
          reduceIte, List.map_nil] at ih ⊢ <;>
        simp [he, ih]

/-- Per-candidate resolution of the extraction loop for a policy other than
STOP, used to show that iteration direction only reorders the plan. -/
def nonStopItem (disk : List String) (om : OnMatch) (template base_path : String) (p : Post) : Option FileObj :=
  match p.file with
  | none => none
  | some fd =>
    let fpath := pathJoin base_path (gen_full_path_core p fd template)
    if pathExists disk fpath then
      match om with
      | OnMatch.APPEND => some (mkFileObj (appendResolve disk 1 (disk.length + 1) fpath) fd)
      | OnMatch.REPLACE => some (mkFileObj fpath fd)
      | OnMatch.SKIP => none
      | OnMatch.STOP => none
    else some (mkFileObj fpath fd)

theorem extract_loop_nonstop_eq (disk : List String) (om : OnMatch) (template base_path : String)
    (hom : om ≠ OnMatch.STOP) :
    ∀ l : List Post,
      extract_loop disk (some om) template base_path l =
        l.filterMap (nonStopItem disk om template base_path) := by
  intro l
  induction l with
  | nil => rfl
  | cons p rest ih =>
    cases hf : p.file with
    | none => simp [extract_loop, nonStopItem, hf, List.filterMap_cons, ih]
    | some fd =>
      by_cases he : pathExists disk (pathJoin base_path (gen_full_path_core p fd template))
      · cases om <;>
          simp [extract_loop, nonStopItem, hf, he, List.filterMap_cons, ih] <;>
          exact absurd rfl hom
      · simp [extract_loop, nonStopItem, hf, he, List.filterMap_cons, ih]

/-! ## Claim theorems -/

/-- C1: with collision policy STOP, extraction walks the candidates in the
configured iteration order and halts at the first candidate whose rendered
destination already exists on disk, discarding the rest: for every snapshot,
disk state and direction the emitted plan equals the contiguous initial run,
in iteration order, of file-carrying posts with fresh destinations — in
particular, for reverse (newest-first) iteration, exactly the contiguous run
of newest unseen files. -/
theorem stop_policy_emits_fresh_run (json_data : JsonData) (reverse : Bool)
    (template base_path : String) (disk : List String) :
    extract_file_objects json_data reverse (some OnMatch.STOP) template base_path disk =
      specStopPlan disk template base_path
        (if reverse then json_data.posts.reverse else json_data.posts) := by
  unfold extract_file_objects
  exact extract_loop_stop_eq disk template base_path _

/-- C2: the code does not take the first 16 characters of the OP comment; for
an OP with no subject and the 20-character comment abcdefghijklmnopqrst it
derives the single character at index 15, the one-character title p, not the
16-character prefix the spec states. -/
theorem title_derivation_single_char :
    derive_title ⟨1, 0, none, some "abcdefghijklmnopqrst", none, none⟩ "123" = some "p" ∧
      some "p" ≠ some "abcdefghijklmnop" := by
  constructor
  · decide
  · decide

/-- C3: the APPEND collision loop at an existing destination out/a.jpg does
not produce out/a(1).jpg: the source interpolates the Path.suffixes list into
the f-string, yielding the bracketed name, and the counter is never
incremented, so when the first rewritten path also exists the next candidate
reuses counter 1 on the rewritten name instead of producing a(2).jpg. -/
theorem append_collision_actual_paths :
    appendResolve ["out/a.jpg"] 1 2 "out/a.jpg" =
      "out/a(1)[" ++ String.mk [squote] ++ ".jpg" ++ String.mk [squote] ++ "]" ∧
    appendResolve
        ["out/a.jpg", "out/a(1)[" ++ String.mk [squote] ++ ".jpg" ++ String.mk [squote] ++ "]"]
        1 3 "out/a.jpg" =
      "out/a(1)[" ++ String.mk [squote] ++ "(1)[" ++ String.mk [dquote] ++ ".jpg" ++
        String.mk [squote] ++ "]" ++ String.mk [dquote] ++ "]" := by
  constructor
  · decide
  · decide

/-- C4: on a 304 response the sync yields REUSED with exactly the cached
snapshot if and only if the conditional mode is REUSE and a cached entry
exists; in every other 304 case (mode STOP or IGNORE, or no cached entry) it
yields ABORTED. -/
theorem sync_304_reused_iff (cached : Option CacheEntry) (mode : ModSince)
    (resp : HttpResponse) (h : resp.status = 304) :
    (∀ s : JsonData,
        (get_json_data_for_thread cached mode resp).1 = SyncOutcome.REUSED s ↔
          (mode = ModSince.REUSE ∧ ∃ e, cached = some e ∧ s = e.json)) ∧
      (¬(mode = ModSince.REUSE ∧ cached.isSome) →
        (get_json_data_for_thread cached mode resp).1 = SyncOutcome.ABORTED) := by
  have h200 : ¬(resp.status = 200 ∧ resp.contentType = "application/json") := by
    rintro ⟨h1, -⟩
    rw [h] at h1
    exact absurd h1 (by decide)
  unfold get_json_data_for_thread
  cases cached with
  | none => cases mode <;> simp [h200, h]
  | some e =>
    cases mode <;> simp [h200, h]
    exact fun s => eq_comm

theorem sync_304_reused_iff_witness :
    (⟨304, "", "", ⟨[]⟩⟩ : HttpResponse).status = 304 ∧
      (get_json_data_for_thread (some ⟨"lm", ⟨[]⟩⟩) ModSince.STOP ⟨304, "", "", ⟨[]⟩⟩).1 =
        SyncOutcome.ABORTED :=
  ⟨rfl, (sync_304_reused_iff (some ⟨"lm", ⟨[]⟩⟩) ModSince.STOP ⟨304, "", "", ⟨[]⟩⟩ rfl).2
    (by decide)⟩

/-- C5 counterexample: rendering does not leave literal text unchanged — the
directory renderer lowercases the whole template first, so the literal
template A renders to a. -/
theorem literal_text_not_preserved :
    gen_path ⟨"g", "1", "t"⟩ "A" = "a" ∧ "a" ≠ "A" := by
  constructor
  · decide
  · decide

/-- C5 amended: gen_path lowercases the entire template — literal text
included — as its device for case-insensitive placeholder matching, so
literal text is not preserved exactly; what holds instead, for every template
decomposed into literal pieces and placeholders (literal pieces ASCII and
percent-free, keys ASCII and free of percent and closing parenthesis, context
values free of percent and backslash): the rendered output is exactly the
template with each literal piece lowercased in place around the firing
substitutions, each supported placeholder — board, thread, title, matched
case-insensitively — replaced by its untouched context value, and every
placeholder whose key is not supplied left verbatim (lowercased), with no
error raised. -/
theorem gen_path_renders_template (info : StructureInfo) (segs : List TSeg)
    (hlit : litsPctFree segs = true) (hkeys : keysClean segs = true)
    (hascii : segsAscii segs = true)
    (hb : valClean info.board = true) (hth : valClean info.thread = true)
    (hti : valClean info.title = true) :
    gen_path info (segFlat segs) = segRender info segs := by
  have hdef : gen_path info (segFlat segs) =
      substS (substS (substS (lowerS (segFlat segs)) "%(board)" info.board)
        "%(thread)" info.thread) "%(title)" info.title := rfl
  have e1 : ("%(" ++ ("board" : String) ++ ")") = "%(board)" := rfl
  have e2 : ("%(" ++ ("thread" : String) ++ ")") = "%(thread)" := rfl
  have e3 : ("%(" ++ ("title" : String) ++ ")") = "%(title)" := rfl
  rw [hdef, lowerS_segFlat, ← e1, ← e2, ← e3,
    substS_segFlat "board" info.board (by decide) _
      (litsPctFree_lower segs hlit) (keysClean_lower segs hkeys),
    substS_segFlat "thread" info.thread (by decide) _
      (litsPctFree_substSegs _ _ (valClean_pctFree _ hb) _ (litsPctFree_lower segs hlit))
      (keysClean_substSegs _ _ _ (keysClean_lower segs hkeys)),
    substS_segFlat "title" info.title (by decide) _
      (litsPctFree_substSegs _ _ (valClean_pctFree _ hth) _
        (litsPctFree_substSegs _ _ (valClean_pctFree _ hb) _ (litsPctFree_lower segs hlit)))
      (keysClean_substSegs _ _ _ (keysClean_substSegs _ _ _ (keysClean_lower segs hkeys)))]
  exact substSegs_three_render info segs

theorem gen_path_renders_template_witness :
    (litsPctFree [TSeg.lit "A-", TSeg.ph "BOARD", TSeg.lit "/", TSeg.ph "foo", TSeg.lit "-Z"] = true ∧
      keysClean [TSeg.lit "A-", TSeg.ph "BOARD", TSeg.lit "/", TSeg.ph "foo", TSeg.lit "-Z"] = true ∧
      segsAscii [TSeg.lit "A-", TSeg.ph "BOARD", TSeg.lit "/", TSeg.ph "foo", TSeg.lit "-Z"] = true ∧
      valClean "g" = true ∧ valClean "1" = true ∧ valClean "t" = true) ∧
    segFlat [TSeg.lit "A-", TSeg.ph "BOARD", TSeg.lit "/", TSeg.ph "foo", TSeg.lit "-Z"] =
      "A-%(BOARD)/%(foo)-Z" ∧
    segRender ⟨"g", "1", "t"⟩
        [TSeg.lit "A-", TSeg.ph "BOARD", TSeg.lit "/", TSeg.ph "foo", TSeg.lit "-Z"] =
      "a-g/%(foo)-z" ∧
    gen_path ⟨"g", "1", "t"⟩
        (segFlat [TSeg.lit "A-", TSeg.ph "BOARD", TSeg.lit "/", TSeg.ph "foo", TSeg.lit "-Z"]) =
      segRender ⟨"g", "1", "t"⟩
        [TSeg.lit "A-", TSeg.ph "BOARD", TSeg.lit "/", TSeg.ph "foo", TSeg.lit "-Z"] :=
  ⟨⟨by decide, by decide, by decide, by decide, by decide, by decide⟩, by decide, by decide,
    gen_path_renders_template ⟨"g", "1", "t"⟩
      [TSeg.lit "A-", TSeg.ph "BOARD", TSeg.lit "/", TSeg.ph "foo", TSeg.lit "-Z"]
      (by decide) (by decide) (by decide) (by decide) (by decide) (by decide)⟩

/-- C6: for every file-carrying post and every template, the rendered per-file
path is the placeholder-substituted template with the post's extension
appended after it — so it ends with the extension even when the ext
placeholder is absent, and in addition to the substitution when it is
present. -/
theorem extension_always_appended (post : Post) (fd : FileData) (template : String)
    (h : post.file = some fd) :
    ∃ v, gen_full_path post template = some (v ++ fd.ext) := by
  refine ⟨substS (substS (substS (substS template "%(id)" (toString post.time))
      "%(post)" (toString post.no)) "%(file)" fd.filename) "%(ext)" fd.ext, ?_⟩
  simp [gen_full_path, gen_full_path_core, h]

theorem extension_always_appended_witness :
    (⟨1, 9, none, none, none, some ⟨"x", 5, ".jpg"⟩⟩ : Post).file = some ⟨"x", 5, ".jpg"⟩ ∧
      ∃ v, gen_full_path ⟨1, 9, none, none, none, some ⟨"x", 5, ".jpg"⟩⟩ "%(ext)" =
        some (v ++ ".jpg") :=
  ⟨rfl, extension_always_appended ⟨1, 9, none, none, none, some ⟨"x", 5, ".jpg"⟩⟩
    ⟨"x", 5, ".jpg"⟩ "%(ext)" rfl⟩

/-- C7: the three lowercase strings append, replace and skip map to their
OnMatch variants, but the configuration string stop maps to none — the source
case pattern is the uppercase literal — so a collision under the configured
stop policy does not halt extraction: with an existing destination for the
first file post, the plan still contains the second file post's item. -/
theorem stop_string_not_mapped :
    get_on_match_enum "append" = some OnMatch.APPEND ∧
    get_on_match_enum "replace" = some OnMatch.REPLACE ∧
    get_on_match_enum "skip" = some OnMatch.SKIP ∧
    get_on_match_enum "stop" = none ∧
    extract_file_objects
        ⟨[⟨1, 10, none, none, none, some ⟨"x", 100, ".jpg"⟩⟩,
          ⟨2, 20, none, none, none, some ⟨"y", 200, ".jpg"⟩⟩]⟩
        false (get_on_match_enum "stop") "%(file)" "out" ["out/x.jpg"] =
      [⟨"out/y.jpg", "200.jpg"⟩] := by
  refine ⟨by decide, by decide, by decide, by decide, by decide⟩

/-- C8: with any collision policy other than STOP, reverse iteration emits
precisely the forward plan in reverse order — direction changes emission
order only, never which files are selected. -/
theorem direction_only_reorders (json_data : JsonData) (om : OnMatch)
    (template base_path : String) (disk : List String) (hom : om ≠ OnMatch.STOP) :
    extract_file_objects json_data true (some om) template base_path disk =
      (extract_file_objects json_data false (some om) template base_path disk).reverse := by
  unfold extract_file_objects
  rw [extract_loop_nonstop_eq disk om template base_path hom,
    extract_loop_nonstop_eq disk om template base_path hom]
  simp [filterMap_rev]

theorem direction_only_reorders_witness :
    OnMatch.SKIP ≠ OnMatch.STOP ∧
      extract_file_objects
          ⟨[⟨1, 10, none, none, none, some ⟨"x", 100, ".jpg"⟩⟩,
            ⟨2, 20, none, none, none, some ⟨"y", 200, ".jpg"⟩⟩]⟩
          true (some OnMatch.SKIP) "%(file)" "out" ["out/x.jpg"] =
        (extract_file_objects
            ⟨[⟨1, 10, none, none, none, some ⟨"x", 100, ".jpg"⟩⟩,
              ⟨2, 20, none, none, none, some ⟨"y", 200, ".jpg"⟩⟩]⟩
            false (some OnMatch.SKIP) "%(file)" "out" ["out/x.jpg"]).reverse :=
  ⟨by decide,
    direction_only_reorders
      ⟨[⟨1, 10, none, none, none, some ⟨"x", 100, ".jpg"⟩⟩,
        ⟨2, 20, none, none, none, some ⟨"y", 200, ".jpg"⟩⟩]⟩
      OnMatch.SKIP "%(file)" "out" ["out/x.jpg"] (by decide)⟩

/-- C9 counterexample: the pacing sleep is applied after every item including
the last — a single download taking half a time unit is followed by a
trailing sleep of half a unit, and the run takes one full unit, not the
half-unit the claim's no-trailing-wait reading implies. -/
theorem pacing_trailing_sleep :
    lastSleep [(1 : ℚ) / 2] = 1 / 2 ∧ ((1 : ℚ) / 2 ≠ 0) ∧
      downloadTotalTime [(1 : ℚ) / 2] = 1 := by
  refine ⟨?_, by norm_num, ?_⟩ <;>
    norm_num [lastSleep, sleepAmount, downloadTotalTime, iterDuration]

/-- C9 amended: each loop iteration, the last included, takes the attempt
duration padded up to one full time unit, so a run of N items takes at least
N units of wall time. -/
theorem pacing_floor_every_item (durations : List ℚ) :
    downloadTotalTime durations = (durations.map (fun d => max d 1)).sum ∧
      (durations.length : ℚ) ≤ downloadTotalTime durations := by
  have hfun : ∀ d : ℚ, iterDuration d = max d 1 := by
    intro d
    unfold iterDuration sleepAmount
    rcases lt_or_le d 1 with hd | hd
    · rw [if_pos hd, max_eq_right hd.le]
      ring
    · rw [if_neg (not_lt.mpr hd), max_eq_left hd]
      ring
  constructor
  · unfold downloadTotalTime
    have hext : iterDuration = fun d : ℚ => max d 1 := funext hfun
    rw [hext]
  · induction durations with
    | nil => simp [downloadTotalTime]
    | cons d ds ih =>
      have h1 : (1 : ℚ) ≤ iterDuration d := by
        rw [hfun]
        exact le_max_right d 1
      have hstep : downloadTotalTime (d :: ds) = iterDuration d + downloadTotalTime ds := by
        simp [downloadTotalTime]
      rw [hstep]
      simp only [List.length_cons]
      push_cast
      calc (ds.length : ℚ) + 1 ≤ downloadTotalTime ds + iterDuration d := add_le_add ih h1
        _ = iterDuration d + downloadTotalTime ds := by ring

theorem Thread_get_json_data_abort (cached : Option CacheEntry) (mode : ModSince)
    (resp : HttpResponse)
    (h200 : ¬(resp.status = 200 ∧ resp.contentType = "application/json"))
    (h304 : ¬(resp.status = 304 ∧ mode = ModSince.REUSE ∧ cached.isSome)) :
    Thread_get_json_data cached mode resp = (none, cached) := by
  unfold Thread_get_json_data
  cases cached with
  | none => cases mode <;> simp [h200]
  | some e =>
    have hnre : ¬(resp.status = 304 ∧ mode = ModSince.REUSE) := by
      rintro ⟨ha, hb⟩
      exact h304 ⟨ha, hb, rfl⟩
    cases mode <;> simp_all

/-- C10: when the metadata response is neither a 200 JSON success nor a 304
accepted under mode REUSE with a cached entry present, Thread.download leaves
the cache entry exactly as it was (no write, no cleanup deletion even with
clean configured), renders no directory path, and attempts no file
download. -/
theorem aborted_sync_no_effects (cached : Option CacheEntry) (mode : ModSince)
    (resp : HttpResponse) (clean reverse : Bool) (on_match : Option OnMatch)
    (structure_tmpl base_path board thread_id : String) (disk : List String)
    (h200 : ¬(resp.status = 200 ∧ resp.contentType = "application/json"))
    (h304 : ¬(resp.status = 304 ∧ mode = ModSince.REUSE ∧ cached.isSome)) :
    Thread_download cached mode resp clean reverse on_match structure_tmpl
        base_path board thread_id disk = some ⟨cached, none, []⟩ := by
  unfold Thread_download
  rw [Thread_get_json_data_abort cached mode resp h200 h304]

theorem aborted_sync_no_effects_witness :
    (¬((500 : Nat) = 200 ∧ "text/html" = "application/json")) ∧
      (¬((500 : Nat) = 304 ∧ ModSince.REUSE = ModSince.REUSE ∧
          (some (⟨"lm", ⟨[]⟩⟩ : CacheEntry)).isSome)) ∧
      Thread_download (some ⟨"lm", ⟨[]⟩⟩) ModSince.REUSE ⟨500, "text/html", "", ⟨[]⟩⟩
          true false (some OnMatch.SKIP) "%(BOARD)" "." "g" "1" [] =
        some ⟨some ⟨"lm", ⟨[]⟩⟩, none, []⟩ :=
  ⟨by decide, by decide,
    aborted_sync_no_effects (some ⟨"lm", ⟨[]⟩⟩) ModSince.REUSE ⟨500, "text/html", "", ⟨[]⟩⟩
      true false (some OnMatch.SKIP) "%(BOARD)" "." "g" "1" [] (by decide) (by decide)⟩
